import Mathlib

/-!
Verification of the resolution-and-retrieval logic of the textbook
downloader (`pdf_book_download_from_zxxeducn.py`).

The shallow embedding models the network and the file system explicitly:

* an HTTP GET for one candidate PDF URL either raises (timeout / transport /
  unexpected error) or yields a response with a status code, a content-type
  header and a payload length — `FetchResult`;
* `download_pdf_with_cdn_fallback` receives, for each candidate URL, that
  fetch outcome together with whether the local disk write would succeed
  (`Attempt`), and returns the boolean the Python function returns plus the
  ordered trace of requests issued and files written (`Ev`);
* `get_book_by_sequence_number` receives, for each catalog URL, either
  `none` (the fetch or the JSON parse raised) or the list of book records
  that catalog holds, and returns the Python triple plus the trace of
  catalog indices it requested;
* the file-system persistence of an accepted payload is modelled as the
  list of primitive operations the code performs (`FsOp`), with a
  small-step semantics that can cut a write short to model interruption.
-/

/-- Outcome of one `requests.get` on a candidate PDF URL: either an
exception (timeout, transport error, unexpected error) or a response
carrying a status code, a content-type header and the payload length. -/
inductive FetchResult where
  | exn : FetchResult
  | resp (status : Nat) (contentType : String) (contentLength : Nat) : FetchResult
deriving DecidableEq, Repr

/-- One candidate URL's world: what the GET returns, and whether the local
disk write succeeds if the code attempts it (`false` = OSError raised). -/
structure Attempt where
  fetch : FetchResult
  writeOk : Bool
deriving DecidableEq, Repr

/-- Observable events of the fallback loop: an HTTP request to candidate
`i`, or a completed file write from candidate `i`'s payload. -/
inductive Ev where
  | request (i : Nat)
  | write (i : Nat)
deriving DecidableEq, Repr

/-- Substring test on character lists, as Python's `in` on strings. -/
def containsSub (needle : List Char) : List Char → Bool
  | [] => needle.isEmpty
  | c :: rest => needle.isPrefixOf (c :: rest) || containsSub needle rest

/-- `'pdf' in content_type.lower()` from the validation at line 199. -/
def isPdfCT (ct : String) : Bool :=
  containsSub ['p', 'd', 'f'] (ct.data.map Char.toLower)

/-- The acceptance test of `download_pdf_with_cdn_fallback` (lines 193-199):
status 200, content-type containing "pdf" (case-insensitively), payload
strictly larger than 1000000 bytes. -/
def validAttempt (a : Attempt) : Bool :=
  match a.fetch with
  | FetchResult.exn => false
  | FetchResult.resp status ct len =>
      status == 200 && (isPdfCT ct && decide (len > 1000000))

/-- A candidate the loop stops at: valid response and successful write. -/
def acceptedAttempt (a : Attempt) : Bool :=
  validAttempt a && a.writeOk

/-- The `for i, pdf_url in enumerate(pdf_urls)` loop of
`download_pdf_with_cdn_fallback` (lines 186-227). Each iteration issues the
GET (recorded as `Ev.request`); an exception, a non-200 status, an invalid
payload, or an OSError while saving all fall through to the next candidate;
a valid payload whose save succeeds returns `True` at once. -/
def downloadLoop : List Attempt → Nat → Bool × List Ev
  | [], _ => (false, [])
  | a :: rest, i =>
    match a.fetch with
    | FetchResult.exn =>
      let r := downloadLoop rest (i + 1)
      (r.1, Ev.request i :: r.2)
    | FetchResult.resp status ct len =>
      if status == 200 then
        if isPdfCT ct && decide (len > 1000000) then
          if a.writeOk then (true, [Ev.request i, Ev.write i])
          else
            let r := downloadLoop rest (i + 1)
            (r.1, Ev.request i :: r.2)
        else
          let r := downloadLoop rest (i + 1)
          (r.1, Ev.request i :: r.2)
      else
        let r := downloadLoop rest (i + 1)
        (r.1, Ev.request i :: r.2)

/-- `download_pdf_with_cdn_fallback` (lines 153-227).  The argument is
`none` for Python `None`; `if not pdf_urls: return False` rejects both
`None` and the empty list before any request. -/
def download_pdf_with_cdn_fallback : Option (List Attempt) → Bool × List Ev
  | none => (false, [])
  | some [] => (false, [])
  | some (a :: rest) => downloadLoop (a :: rest) 0

/-- Index of the first candidate the loop accepts, if any. -/
def firstAcceptedIdx : List Attempt → Option Nat
  | [] => none
  | a :: rest =>
    if acceptedAttempt a then some 0 else (firstAcceptedIdx rest).map (· + 1)

/-- The event trace the fallback loop produces: requests in rank order up to
and including the first accepted candidate (followed by its write), or
requests to every candidate when none is accepted. -/
def expectedTrace (atts : List Attempt) : List Ev :=
  match firstAcceptedIdx atts with
  | some m => (List.range (m + 1)).map Ev.request ++ [Ev.write m]
  | none => (List.range atts.length).map Ev.request

/-- Placeholder attempt used with `List.getD`. -/
def defaultAttempt : Attempt := ⟨FetchResult.exn, false⟩

/-- A candidate whose response is a 200 HTML error page (invalid). -/
def badHtmlAttempt : Attempt := ⟨FetchResult.resp 200 "text/html" 500, true⟩

/-- A candidate whose GET times out. -/
def timeoutAttempt : Attempt := ⟨FetchResult.exn, true⟩

/-- A candidate with a valid PDF response and a working disk. -/
def goodAttempt : Attempt := ⟨FetchResult.resp 200 "application/pdf" 2000000, true⟩

/-- A candidate with a valid PDF response whose disk write raises OSError. -/
def badDiskAttempt : Attempt := ⟨FetchResult.resp 200 "application/pdf" 2000000, false⟩

/-- The attempt at index `i` of the candidate list (default irrelevant). -/
def attAt (atts : List Attempt) (i : Nat) : Attempt :=
  (atts.get? i).getD defaultAttempt

/-- Primitive file-system operations of the persistence step. -/
inductive FsOp where
  | openWrite (path : String)
  | writeBytes (path : String) (content : List Nat)
  | rename (src dst : String)
deriving DecidableEq, Repr

/-- Whether an operation is a rename. -/
def FsOp.isRename : FsOp → Bool
  | rename _ _ => true
  | _ => false

/-- File-system contents: each existing path maps to the bytes stored there. -/
abbrev FsState : Type := String → Option (List Nat)

/-- The empty file system. -/
def emptyFs : FsState := fun _ => none

/-- Effect of one operation: `openWrite` truncates/creates the file,
`writeBytes` appends the bytes to the opened file, `rename` moves a file. -/
def applyOp (fs : FsState) : FsOp → FsState
  | FsOp.openWrite p => fun q => if q = p then some [] else fs q
  | FsOp.writeBytes p c => fun q => if q = p then some (((fs p).getD []) ++ c) else fs q
  | FsOp.rename src dst =>
      fun q => if q = dst then fs src else if q = src then none else fs q

/-- Run a list of operations in order. -/
def runOps (fs : FsState) : List FsOp → FsState
  | [] => fs
  | op :: rest => runOps (applyOp fs op) rest

/-- State after the operations before index `cut` ran to completion and
operation `cut`, when it is a byte write, was interrupted after `k` bytes
(operations after `cut` never run). -/
def interruptedState (fs : FsState) (ops : List FsOp) (cut k : Nat) : FsState :=
  let fs2 := runOps fs (ops.take cut)
  match ops.get? cut with
  | some (FsOp.writeBytes p c) =>
      fun q => if q = p then some (((fs2 p).getD []) ++ c.take k) else fs2 q
  | _ => fs2

/-- Lines 201-205 of `download_pdf_with_cdn_fallback`: an accepted payload
is saved by opening the destination path itself in write mode and writing
all bytes to it — no temporary file and no rename. -/
def persistOps (filePath : String) (content : List Nat) : List FsOp :=
  [FsOp.openWrite filePath, FsOp.writeBytes filePath content]

/-- The catalog loop of `get_book_by_sequence_number` (lines 263-301).
`cats` holds, per catalog URL, `none` when the fetch or the JSON parse
raises (the `except ... continue` arms) or `some info` for a parsed
catalog; `idx` is the enumeration index, `cur` is `current_sequence`, `tr`
records the catalog indices requested so far.  A found book returns
`(book, catalog_index, catalog_position)`; a failed catalog is skipped
with `current_sequence` unchanged. -/
def gbLoop {α : Type} :
    List (Option (List α)) → Nat → Int → Int → List Nat → Option (α × Nat × Nat) × List Nat
  | [], _, _, _, tr => (none, tr)
  | none :: rest, idx, cur, n, tr => gbLoop rest (idx + 1) cur n (tr ++ [idx])
  | some info :: rest, idx, cur, n, tr =>
    if cur ≤ n ∧ n < cur + (info.length : Int) then
      match info.get? (n - cur).toNat with
      | some b => (some (b, idx, (n - cur).toNat), tr ++ [idx])
      | none => gbLoop rest (idx + 1) (cur + info.length) n (tr ++ [idx])
    else gbLoop rest (idx + 1) (cur + info.length) n (tr ++ [idx])

/-- `get_book_by_sequence_number(catalog_urls, sequence_number)`
(lines 230-301): `sequence_number < 1` is rejected before the loop runs
(so before any catalog request); otherwise the loop starts at
`current_sequence = 1`.  The first component is the Python triple
(`none` standing for `(None, None, None)`), the second the trace of
catalog indices requested. -/
def get_book_by_sequence_number {α : Type} (cats : List (Option (List α))) (n : Int) :
    Option (α × Nat × Nat) × List Nat :=
  if n < 1 then (none, []) else gbLoop cats 0 1 n []

/-- Total number of books across the catalogs. -/
def totalLen {α : Type} (cats : List (List α)) : Nat := (cats.map List.length).sum

/-- Sum of the sizes of the first `i` catalogs. -/
def cumLen {α : Type} : List (List α) → Nat → Nat
  | _, 0 => 0
  | [], _ + 1 => 0
  | c :: rest, i + 1 => c.length + cumLen rest i

/-- Size of catalog `i`. -/
def shardLen {α : Type} (cats : List (List α)) (i : Nat) : Nat := (cats.getD i []).length

/-- The book at position `p` of catalog `i`. -/
def bookAt {α : Type} (cats : List (List α)) (i p : Nat) : Option α := (cats.getD i []).get? p

/-- The claim's resolution property for a returned triple: the position is
inside its catalog, the cumulative sizes before the catalog are `< n`, the
cumulative sizes through it are `≥ n`, the book is the one at that spot,
and no other catalog index satisfies the cumulative-size bracketing. -/
def goodTriple {α : Type} (cats : List (List α)) (n : Int) : Option (α × Nat × Nat) → Prop
  | none => False
  | some (b, i, p) =>
      i < cats.length ∧ p < shardLen cats i ∧
      (cumLen cats i : Int) < n ∧ n ≤ (cumLen cats (i + 1) : Int) ∧
      bookAt cats i p = some b ∧
      ∀ j, (cumLen cats j : Int) < n → n ≤ (cumLen cats (j + 1) : Int) → j = i

/-- One entry of the detail document's `ti_items` list, with the two fields
`get_pdf_url` reads; a missing dictionary key is `none`. -/
structure TiItem where
  ti_file_flag : Option String
  ti_storages : Option (List String)
deriving DecidableEq, Repr

/-- Replace every occurrence of `pat` (leftmost, non-overlapping) by
`subst`, with explicit fuel so the recursion is structural. -/
def replaceAllAux (pat subst : List Char) : Nat → List Char → List Char
  | 0, s => s
  | _ + 1, [] => []
  | fuel + 1, c :: rest =>
    if pat ≠ [] ∧ pat.isPrefixOf (c :: rest) then
      subst ++ replaceAllAux pat subst fuel (List.drop (pat.length - 1) rest)
    else c :: replaceAllAux pat subst fuel rest

/-- Python `str.replace`: all leftmost, non-overlapping occurrences. -/
def replaceAll (pat subst s : List Char) : List Char := replaceAllAux pat subst s.length s

/-- `storage_url.replace('-private', '-oversea')` (line 128). -/
def overseaUrl (u : String) : String :=
  String.mk (replaceAll "-private".data "-oversea".data u.data)

/-- The scanning loop of `get_pdf_url` (lines 122-134): the first item whose
`ti_file_flag` equals `"source"` (case-sensitive) and whose `ti_storages`
key exists and is non-empty yields its transformed URL list; otherwise the
scan continues, and `None` is returned when the list is exhausted. -/
def get_pdf_url : List TiItem → Option (List String)
  | [] => none
  | it :: rest =>
    if it.ti_file_flag = some "source" then
      match it.ti_storages with
      | some (u :: us) => some ((u :: us).map overseaUrl)
      | _ => get_pdf_url rest
    else get_pdf_url rest

/-- Whether an item's file-role flag equals `"source"` exactly. -/
def isSourceItem (it : TiItem) : Bool := decide (it.ti_file_flag = some "source")

/-- A source-flagged item carrying at least one storage URI. -/
def hasDownload (it : TiItem) : Bool :=
  isSourceItem it &&
    match it.ti_storages with
    | some (_ :: _) => true
    | _ => false

/-- What one item contributes when it is the document's source entry: its
transformed storage list in order, or `none` when it has no storage URIs. -/
def itemResult (it : TiItem) : Option (List String) :=
  match it.ti_storages with
  | some (u :: us) => some ((u :: us).map overseaUrl)
  | _ => none

/-- The returned URL list comes from a source-flagged item of the document,
transformed element-wise with order preserved. -/
def cameFromSource (items : List TiItem) (urls : List String) : Prop :=
  ∃ it, it ∈ items ∧ it.ti_file_flag = some "source" ∧
    ∃ u us, it.ti_storages = some (u :: us) ∧ urls = (u :: us).map overseaUrl

/-- A catalog book record with the fields the range loop reads: `id`,
`title` and the names of its tags (`tag['tag_name']`). -/
structure BookInfo where
  id : String
  title : String
  tag_list : List String
deriving DecidableEq, Repr

/-- The outcomes of the per-book calls the range loop makes: the resolved
book for a sequence number (`get_book_by_sequence_number`), the PDF URL
list for a book id (`get_pdf_url`), and whether the download for that
sequence number succeeds (`download_pdf_with_cdn_fallback`). -/
structure RangeEnv where
  resolve : Int → Option BookInfo
  pdfUrls : String → Option (List String)
  downloadOk : Int → Bool

/-- `next((tag['tag_name'] for tag in tag_list if '版' in tag['tag_name']), '')`
(line 515): the first tag name containing the publisher glyph, or `""`. -/
def publisherOf (book : BookInfo) : String :=
  (book.tag_list.filter (fun t => t.data.contains '版')).headD ""

/-- `f"{publisher}{book_info['title']}"` (line 516). -/
def bookNameOf (book : BookInfo) : String := publisherOf book ++ book.title

/-- The body of the range loop for one sequence number (lines 507-529):
`none` means success (`total_processed` is incremented), `some entry` is
the `(seq_num, title, reason)` tuple appended to `failed_books`. -/
def processSeq (env : RangeEnv) (seq : Int) : Option (Int × String × String) :=
  match env.resolve seq with
  | some book =>
    match env.pdfUrls book.id with
    | some (_ :: _) =>
      if env.downloadOk seq then none
      else some (seq, bookNameOf book, "Download failed")
    | _ => some (seq, book.title, "No PDF URLs")
  | none => some (seq, "Unknown", "Not found")

/-- `range(start, end + 1)` over integers. -/
def seqList (s e : Int) : List Int := (List.range (e + 1 - s).toNat).map (fun k => s + k)

/-- `for seq_num in range(start, end + 1)` with the two accumulators
`total_processed` and `failed_books` (lines 500-532). -/
def rangeLoop (env : RangeEnv) :
    List Int → Nat × List (Int × String × String) → Nat × List (Int × String × String)
  | [], acc => acc
  | q :: rest, acc =>
    match processSeq env q with
    | none => rangeLoop env rest (acc.1 + 1, acc.2)
    | some f => rangeLoop env rest (acc.1, acc.2 ++ [f])

/-- The range walk from `s` to `e` inclusive, from empty accumulators. -/
def rangeRun (env : RangeEnv) (s e : Int) : Nat × List (Int × String × String) :=
  rangeLoop env (seqList s e) (0, [])

/-- Python `str.split(sep)` for a one-character separator: every occurrence
splits, empty pieces are kept. -/
def splitOnChar (c : Char) : List Char → List (List Char)
  | [] => [[]]
  | x :: xs =>
    if x = c then [] :: splitOnChar c xs
    else
      match splitOnChar c xs with
      | [] => [[x]]
      | g :: gs => (x :: g) :: gs

/-- Digits-only numeral value, `none` when empty or a non-digit occurs. -/
def digitsToNat? (cs : List Char) : Option Nat :=
  if cs ≠ [] ∧ cs.all Char.isDigit then
    some (cs.foldl (fun a c => a * 10 + (c.toNat - '0'.toNat)) 0)
  else none

/-- Model of Python `int()` on a range piece: an optional leading minus
sign followed by digits; anything else raises ValueError (`none`). -/
def pyInt? (cs : List Char) : Option Int :=
  match cs with
  | '-' :: rest => (digitsToNat? rest).map (fun v => -(v : Int))
  | _ => (digitsToNat? cs).map (fun v => (v : Int))

/-- `_download_by_book_range` (lines 470-543): parse the range argument —
`"a-b"` is split on `'-'` and both pieces converted with `int`, with
reversed bounds swapped; a plain integer `"n"` stands for the range `n..n`;
a ValueError anywhere yields `none` (the error message path).  A parsed
range runs the per-sequence loop. -/
def _download_by_book_range (env : RangeEnv) (book_range : List Char) :
    Option (Nat × List (Int × String × String)) :=
  if book_range.contains '-' then
    match (splitOnChar '-' book_range).map pyInt? with
    | [some a, some b] => if a > b then some (rangeRun env b a) else some (rangeRun env a b)
    | _ => none
  else
    match pyInt? book_range with
    | some v => some (rangeRun env v v)
    | none => none

/-- A concrete environment for witnesses: sequence 3 does not resolve,
every other sequence resolves and downloads fine. -/
def exEnv : RangeEnv where
  resolve := fun q => if q = 3 then none else some ⟨"id0", "Title", ["人教版"]⟩
  pdfUrls := fun _ => some ["https://r1-ndr.ykt.cbern.com.cn/x.pdf"]
  downloadOk := fun _ => true

/-- A source-flagged detail item with two replicated storage URIs. -/
def exSourceItem : TiItem :=
  ⟨some "source", some ["https://r1-ndr-private.x/a.pdf", "https://r2-ndr-private.x/a.pdf"]⟩

/-- A detail item list: a preview item first, then the source item. -/
def exItems : List TiItem := [⟨some "preview", some ["https://p.x/t.jpg"]⟩, exSourceItem]

theorem downloadLoop_cons_acc (a : Attempt) (rest : List Attempt) (i : Nat)
    (hacc : acceptedAttempt a = true) :
    downloadLoop (a :: rest) i = (true, [Ev.request i, Ev.write i]) := by
  obtain ⟨f, w⟩ := a
  simp only [acceptedAttempt, Bool.and_eq_true] at hacc
  obtain ⟨hv, hw⟩ := hacc
  cases f with
  | exn => simp [validAttempt] at hv
  | resp status ct len =>
    simp only [validAttempt, Bool.and_eq_true] at hv
    simp [downloadLoop, hv.1, hv.2.1, hv.2.2, hw]

theorem downloadLoop_cons_notacc (a : Attempt) (rest : List Attempt) (i : Nat)
    (hacc : acceptedAttempt a = false) :
    downloadLoop (a :: rest) i =
      ((downloadLoop rest (i + 1)).1, Ev.request i :: (downloadLoop rest (i + 1)).2) := by
  obtain ⟨f, w⟩ := a
  cases f with
  | exn => simp [downloadLoop]
  | resp status ct len =>
    by_cases h200 : (status == 200) = true
    · by_cases hval : (isPdfCT ct && decide (len > 1000000)) = true
      · have hwf : w = false := by
          cases w
          · rfl
          · exfalso
            rw [Bool.and_eq_true] at hval
            simp [acceptedAttempt, validAttempt, h200, hval.1, hval.2] at hacc
        subst hwf
        rw [Bool.and_eq_true] at hval
        simp [downloadLoop, h200, hval.1, hval.2]
      · have hvf : (isPdfCT ct && decide (len > 1000000)) = false := by simpa using hval
        simp [downloadLoop, h200, hvf]
    · have h2f : (status == 200) = false := by simpa using h200
      simp [downloadLoop, h2f]

theorem range_req_shift (i n : Nat) :
    (List.range (n + 1)).map (fun j => Ev.request (i + j)) =
      Ev.request i :: (List.range n).map (fun j => Ev.request (i + 1 + j)) := by
  rw [List.range_succ_eq_map]
  simp only [List.map_cons, List.map_map]
  refine congrArg₂ _ (by simp) ?_
  apply List.map_congr_left
  intro j _
  simp only [Function.comp_apply]
  congr 1
  omega

theorem downloadLoop_eq (atts : List Attempt) (i : Nat) :
    downloadLoop atts i =
      match firstAcceptedIdx atts with
      | some m => (true, (List.range (m + 1)).map (fun j => Ev.request (i + j)) ++ [Ev.write (i + m)])
      | none => (false, (List.range atts.length).map (fun j => Ev.request (i + j))) := by
  induction atts generalizing i with
  | nil => simp [downloadLoop, firstAcceptedIdx]
  | cons a rest ih =>
    by_cases hacc : acceptedAttempt a = true
    · rw [downloadLoop_cons_acc a rest i hacc]
      simp [firstAcceptedIdx, hacc, List.range_succ_eq_map]
    · rw [downloadLoop_cons_notacc a rest i (Bool.not_eq_true _ ▸ hacc), ih (i + 1)]
      have hfa : firstAcceptedIdx (a :: rest) = (firstAcceptedIdx rest).map (· + 1) := by
        simp [firstAcceptedIdx, hacc]
      rw [hfa]
      cases hrest : firstAcceptedIdx rest with
      | none =>
        simp only [hrest, Option.map_none', List.length_cons]
        rw [range_req_shift]
      | some m =>
        simp only [hrest, Option.map_some']
        rw [range_req_shift i (m + 1)]
        have him : i + (m + 1) = i + 1 + m := by omega
        simp [him]

theorem download_some_eq (atts : List Attempt) :
    download_pdf_with_cdn_fallback (some atts) =
      match firstAcceptedIdx atts with
      | some m => (true, (List.range (m + 1)).map Ev.request ++ [Ev.write m])
      | none => (false, (List.range atts.length).map Ev.request) := by
  cases atts with
  | nil => simp [download_pdf_with_cdn_fallback, firstAcceptedIdx]
  | cons a rest =>
    show downloadLoop (a :: rest) 0 = _
    rw [downloadLoop_eq]
    cases h : firstAcceptedIdx (a :: rest) with
    | some m => simp
    | none => simp

theorem mem_req_map (j k : Nat) :
    Ev.request j ∈ (List.range k).map Ev.request ↔ j < k := by
  simp

theorem write_notmem_req_map (j k : Nat) :
    Ev.write j ∉ (List.range k).map Ev.request := by
  simp

theorem firstAcceptedIdx_some (atts : List Attempt) (m : Nat)
    (h : firstAcceptedIdx atts = some m) :
    m < atts.length ∧ acceptedAttempt (attAt atts m) = true ∧
      ∀ j, j < m → acceptedAttempt (attAt atts j) = false := by
  induction atts generalizing m with
  | nil => simp [firstAcceptedIdx] at h
  | cons a rest ih =>
    by_cases hacc : acceptedAttempt a = true
    · simp [firstAcceptedIdx, hacc] at h
      obtain rfl : m = 0 := by omega
      exact ⟨Nat.succ_pos _, by simpa [attAt] using hacc, fun j hj => absurd hj (Nat.not_lt_zero j)⟩
    · have hf : acceptedAttempt a = false := by simpa using hacc
      cases hrest : firstAcceptedIdx rest with
      | none => simp [firstAcceptedIdx, hf, hrest] at h
      | some m' =>
        simp [firstAcceptedIdx, hf, hrest] at h
        obtain rfl : m = m' + 1 := by omega
        obtain ⟨hlt, hacc', hbef⟩ := ih m' hrest
        refine ⟨by simpa using Nat.succ_lt_succ hlt, by simpa [attAt] using hacc', ?_⟩
        intro j hj
        cases j with
        | zero => simpa [attAt] using hf
        | succ j' => simpa [attAt] using hbef j' (by omega)

theorem firstAcceptedIdx_none (atts : List Attempt)
    (h : firstAcceptedIdx atts = none) :
    ∀ j, j < atts.length → acceptedAttempt (attAt atts j) = false := by
  induction atts with
  | nil => intro j hj; simp at hj
  | cons a rest ih =>
    by_cases hacc : acceptedAttempt a = true
    · simp [firstAcceptedIdx, hacc] at h
    · have hf : acceptedAttempt a = false := by simpa using hacc
      cases hrest : firstAcceptedIdx rest with
      | some m' => simp [firstAcceptedIdx, hf, hrest] at h
      | none =>
        intro j hj
        cases j with
        | zero => simpa [attAt] using hf
        | succ j' =>
          simpa [attAt] using ih hrest j' (by simpa using Nat.lt_of_succ_lt_succ hj)

theorem notacc_step (atts : List Attempt) (i : Nat) (a : Attempt)
    (ha : atts.get? i = some a) (hacc : acceptedAttempt a = false) :
    Ev.write i ∉ (download_pdf_with_cdn_fallback (some atts)).2 ∧
    (Ev.request i ∈ (download_pdf_with_cdn_fallback (some atts)).2 →
      i + 1 < atts.length →
        Ev.request (i + 1) ∈ (download_pdf_with_cdn_fallback (some atts)).2) := by
  have hA : attAt atts i = a := by unfold attAt; rw [ha]; rfl
  cases hfa : firstAcceptedIdx atts with
  | some m =>
    obtain ⟨hm, hmacc, _⟩ := firstAcceptedIdx_some atts m hfa
    have him : i ≠ m := by
      intro he
      subst he
      rw [hA] at hmacc
      rw [hmacc] at hacc
      exact Bool.noConfusion hacc
    constructor
    · simp only [download_some_eq, hfa]
      intro hmem
      rcases List.mem_append.mp hmem with hml | hmr
      · exact write_notmem_req_map _ _ hml
      · simp only [List.mem_singleton, Ev.write.injEq] at hmr
        exact him hmr
    · intro hreq hnext
      simp only [download_some_eq, hfa] at hreq ⊢
      have hir : i < m + 1 := by
        rcases List.mem_append.mp hreq with hml | hmr
        · exact (mem_req_map i (m + 1)).mp hml
        · simp at hmr
      have hlt : i < m := lt_of_le_of_ne (Nat.lt_succ_iff.mp hir) him
      exact List.mem_append.mpr (Or.inl ((mem_req_map _ _).mpr (by omega)))
  | none =>
    constructor
    · simp only [download_some_eq, hfa]
      exact write_notmem_req_map _ _
    · intro _ hnext
      simp only [download_some_eq, hfa]
      exact (mem_req_map _ _).mpr hnext

/-- Claim C10: called with `None` or an empty candidate list,
`download_pdf_with_cdn_fallback` returns `False` immediately, with no HTTP
request issued and no file written. -/
theorem C10_empty_candidate_list :
    download_pdf_with_cdn_fallback none = (false, []) ∧
    download_pdf_with_cdn_fallback (some []) = (false, []) :=
  ⟨rfl, rfl⟩

/-- Claim C3: the fallback loop visits candidates in strict rank order —
its trace is the requests `0, 1, ...` up to the first accepted candidate
followed by that candidate's write (or requests to every candidate when
none is accepted) — it returns `True` exactly when some candidate is
accepted, every candidate before the accepted one failed (timeouts and
transport errors included), and with candidates [bad, bad, good] exactly
two failed requests precede the single successful write. -/
theorem C3_strict_rank_order_first_acceptance (atts : List Attempt) :
    (download_pdf_with_cdn_fallback (some atts)).2 = expectedTrace atts ∧
    (download_pdf_with_cdn_fallback (some atts)).1 = (firstAcceptedIdx atts).isSome ∧
    (∀ m, firstAcceptedIdx atts = some m →
      m < atts.length ∧ acceptedAttempt (attAt atts m) = true ∧
        ∀ j, j < m → acceptedAttempt (attAt atts j) = false) ∧
    download_pdf_with_cdn_fallback (some [badHtmlAttempt, timeoutAttempt, goodAttempt]) =
      (true, [Ev.request 0, Ev.request 1, Ev.request 2, Ev.write 2]) := by
  refine ⟨?_, ?_, ?_, by decide⟩
  · cases hfa : firstAcceptedIdx atts with
    | some m => simp [download_some_eq, expectedTrace, hfa]
    | none => simp [download_some_eq, expectedTrace, hfa]
  · cases hfa : firstAcceptedIdx atts with
    | some m => simp [download_some_eq, hfa]
    | none => simp [download_some_eq, hfa]
  · intro m hm
    exact firstAcceptedIdx_some atts m hm

/-- Claim C2: a response whose content-type does not indicate PDF or whose
payload is not above the 1000000-byte threshold is never accepted — no
write event for that candidate occurs, whatever its status code — and when
that candidate was requested and a next candidate exists, the next
candidate is requested too. -/
theorem C2_never_accepts_invalid (atts : List Attempt) (i : Nat) (a : Attempt)
    (status len : Nat) (ct : String)
    (ha : atts.get? i = some a) (hf : a.fetch = FetchResult.resp status ct len)
    (hbad : isPdfCT ct = false ∨ len ≤ 1000000) :
    Ev.write i ∉ (download_pdf_with_cdn_fallback (some atts)).2 ∧
    (Ev.request i ∈ (download_pdf_with_cdn_fallback (some atts)).2 →
      i + 1 < atts.length →
        Ev.request (i + 1) ∈ (download_pdf_with_cdn_fallback (some atts)).2) := by
  have hv : validAttempt a = false := by
    unfold validAttempt
    rw [hf]
    rcases hbad with hct | hlen
    · simp [hct]
    · have hd : decide (len > 1000000) = false := decide_eq_false (by omega)
      simp [hd]
  have hna : acceptedAttempt a = false := by simp [acceptedAttempt, hv]
  exact notacc_step atts i a ha hna

/-- Witness for C2 at a concrete input: a 200-OK HTML error page of 500
bytes at rank 0 is rejected and rank 1 is requested. -/
theorem C2_never_accepts_invalid_witness :
    Ev.write 0 ∉ (download_pdf_with_cdn_fallback (some [badHtmlAttempt, goodAttempt])).2 ∧
    (Ev.request 0 ∈ (download_pdf_with_cdn_fallback (some [badHtmlAttempt, goodAttempt])).2 →
      0 + 1 < ([badHtmlAttempt, goodAttempt] : List Attempt).length →
        Ev.request (0 + 1) ∈ (download_pdf_with_cdn_fallback (some [badHtmlAttempt, goodAttempt])).2) :=
  C2_never_accepts_invalid [badHtmlAttempt, goodAttempt] 0 badHtmlAttempt 200 500 "text/html"
    (by decide) (by decide) (by decide)

/-- Counterexample to claim C7 as stated: candidate 0's payload is valid
but its save raises OSError; the code then requests candidate 1 for the
same book and succeeds there — further candidates ARE tried after a local
write error. -/
theorem C7_counterexample :
    validAttempt badDiskAttempt = true ∧ badDiskAttempt.writeOk = false ∧
    download_pdf_with_cdn_fallback (some [badDiskAttempt, goodAttempt]) =
      (true, [Ev.request 0, Ev.request 1, Ev.write 1]) :=
  ⟨by decide, by decide, by decide⟩

/-- Counterexample to claim C4 as stated: the accepted payload `[1, 2]` is
written straight to the destination path `"book.pdf"`; interrupting the
write after one byte leaves the destination readable with the partial
content `[1]` — not absent and not the complete payload — and the
operation sequence contains no rename at all. -/
theorem C4_counterexample :
    interruptedState emptyFs (persistOps "book.pdf" [1, 2]) 1 1 "book.pdf" = some [1] ∧
    some [1] ≠ (none : Option (List Nat)) ∧
    ([1] : List Nat) ≠ [1, 2] ∧
    (persistOps "book.pdf" [1, 2]).all (fun op => ! op.isRename) = true :=
  ⟨by decide, by decide, by decide, by decide⟩

/-- Amended claim C4: an accepted payload is persisted by opening the
destination path itself and writing the bytes to it — no temporary file
and no rename.  An uninterrupted save leaves exactly the payload at the
destination, but a save interrupted after `k` bytes leaves the destination
in a readable state holding only the first `k` bytes. -/
theorem C4_direct_write_not_atomic (fs : FsState) (path : String)
    (content : List Nat) (k : Nat) :
    runOps fs (persistOps path content) path = some content ∧
    interruptedState fs (persistOps path content) 1 k path = some (content.take k) ∧
    (persistOps path content).all (fun op => ! op.isRename) = true := by
  refine ⟨?_, ?_, by simp [persistOps, FsOp.isRename]⟩
  · simp [persistOps, runOps, applyOp]
  · simp [persistOps, interruptedState, runOps, applyOp]

theorem totalLen_cons {α : Type} (c : List α) (rest : List (List α)) :
    totalLen (c :: rest) = c.length + totalLen rest := by
  simp [totalLen]

theorem cumLen_zero {α : Type} (cats : List (List α)) : cumLen cats 0 = 0 := by
  cases cats <;> rfl

theorem cumLen_nil {α : Type} (i : Nat) : cumLen ([] : List (List α)) i = 0 := by
  cases i <;> rfl

theorem cumLen_cons_succ {α : Type} (c : List α) (rest : List (List α)) (i : Nat) :
    cumLen (c :: rest) (i + 1) = c.length + cumLen rest i := rfl

theorem cumLen_mono {α : Type} (cats : List (List α)) (i j : Nat) (h : i ≤ j) :
    cumLen cats i ≤ cumLen cats j := by
  induction cats generalizing i j with
  | nil => simp [cumLen_nil]
  | cons c rest ih =>
    cases i with
    | zero => rw [cumLen_zero]; exact Nat.zero_le _
    | succ i' =>
      cases j with
      | zero => omega
      | succ j' =>
        rw [cumLen_cons_succ, cumLen_cons_succ]
        exact Nat.add_le_add_left (ih i' j' (by omega)) _

theorem cumLen_past_length {α : Type} (cats : List (List α)) (i : Nat)
    (h : cats.length ≤ i) : cumLen cats i = totalLen cats := by
  induction cats generalizing i with
  | nil => simp [cumLen_nil, totalLen]
  | cons c rest ih =>
    cases i with
    | zero => simp at h
    | succ i' =>
      rw [cumLen_cons_succ, ih i' (by simpa using h), totalLen_cons]

theorem cumLen_succ_of_lt {α : Type} (cats : List (List α)) (i : Nat)
    (h : i < cats.length) :
    cumLen cats (i + 1) = cumLen cats i + shardLen cats i := by
  induction cats generalizing i with
  | nil => simp at h
  | cons c rest ih =>
    cases i with
    | zero =>
      rw [cumLen_cons_succ, cumLen_zero, cumLen_zero]
      simp [shardLen]
    | succ i' =>
      rw [cumLen_cons_succ, cumLen_cons_succ, ih i' (by simpa using h)]
      simp only [shardLen, List.getD_cons_succ]
      omega

theorem cumLen_bracket_unique {α : Type} (cats : List (List α)) (n : Int) (i j : Nat)
    (hi1 : (cumLen cats i : Int) < n) (hi2 : n ≤ (cumLen cats (i + 1) : Int))
    (hj1 : (cumLen cats j : Int) < n) (hj2 : n ≤ (cumLen cats (j + 1) : Int)) :
    j = i := by
  by_contra hne
  rcases Nat.lt_or_ge j i with hlt | hge
  · have hmono := cumLen_mono cats (j + 1) i hlt
    omega
  · have hlt : i < j := lt_of_le_of_ne hge (Ne.symm hne)
    have hmono := cumLen_mono cats (i + 1) j hlt
    omega

theorem gbLoop_exhaust {α : Type} (cats : List (List α)) (idx : Nat) (cur n : Int)
    (tr : List Nat) (h : cur + (totalLen cats : Int) ≤ n) :
    (gbLoop (cats.map some) idx cur n tr).1 = none := by
  induction cats generalizing idx cur tr with
  | nil => simp [gbLoop]
  | cons c rest ih =>
    rw [totalLen_cons] at h
    push_cast at h
    have hcond : ¬(cur ≤ n ∧ n < cur + (c.length : Int)) := by
      have htot : (0 : Int) ≤ (totalLen rest : Int) := by positivity
      omega
    simp only [List.map_cons, gbLoop]
    rw [if_neg hcond]
    apply ih
    omega

theorem gbLoop_found {α : Type} (cats : List (List α)) (idx : Nat) (cur n : Int)
    (tr : List Nat) (h1 : cur ≤ n) (h2 : n < cur + (totalLen cats : Int)) :
    ∃ i p b, i < cats.length ∧
      (gbLoop (cats.map some) idx cur n tr).1 = some (b, idx + i, p) ∧
      (p : Int) = n - (cur + (cumLen cats i : Int)) ∧
      cur + (cumLen cats i : Int) ≤ n ∧ n < cur + (cumLen cats (i + 1) : Int) ∧
      (cats.getD i []).get? p = some b := by
  induction cats generalizing idx cur tr with
  | nil =>
    rw [show totalLen ([] : List (List α)) = 0 from rfl] at h2
    push_cast at h2
    omega
  | cons c rest ih =>
    by_cases hc : n < cur + (c.length : Int)
    · have hcond : cur ≤ n ∧ n < cur + (c.length : Int) := ⟨h1, hc⟩
      have hpos : (n - cur).toNat < c.length := by omega
      have hget : c.get? (n - cur).toNat = some (c.get ⟨(n - cur).toNat, hpos⟩) :=
        List.get?_eq_get hpos
      refine ⟨0, (n - cur).toNat, c.get ⟨(n - cur).toNat, hpos⟩, Nat.succ_pos _, ?_, ?_, ?_, ?_, ?_⟩
      · simp only [List.map_cons, gbLoop]
        rw [if_pos hcond, hget]
        simp
      · rw [cumLen_zero]
        push_cast
        omega
      · rw [cumLen_zero]
        push_cast
        omega
      · rw [cumLen_cons_succ, cumLen_zero]
        push_cast
        omega
      · simp only [List.getD_cons_zero]
        exact hget
    · have h1' : cur + (c.length : Int) ≤ n := by omega
      have h2' : n < cur + (c.length : Int) + (totalLen rest : Int) := by
        rw [totalLen_cons] at h2
        push_cast at h2
        omega
      have hcond : ¬(cur ≤ n ∧ n < cur + (c.length : Int)) := by omega
      obtain ⟨i, p, b, hlen, heq, hp, hle, hlt, hget⟩ :=
        ih (idx + 1) (cur + (c.length : Int)) (tr ++ [idx]) h1' (by omega)
      refine ⟨i + 1, p, b, by simpa using Nat.succ_lt_succ hlen, ?_, ?_, ?_, ?_, ?_⟩
      · simp only [List.map_cons, gbLoop]
        rw [if_neg hcond]
        rw [show idx + (i + 1) = idx + 1 + i from by omega]
        exact heq
      · rw [cumLen_cons_succ]
        push_cast
        omega
      · rw [cumLen_cons_succ]
        push_cast
        omega
      · rw [cumLen_cons_succ]
        push_cast
        omega
      · simpa using hget

/-- Claim C1: with every catalog fetched successfully, a sequence number
`n` with `1 ≤ n ≤ total` resolves to the unique triple whose position is
inside its catalog and whose catalog brackets `n` between the cumulative
sizes; `n` beyond the total yields the `None` triple (the embedding indexes
only under an in-range guard, so no out-of-bounds access exists); and
`n < 1` yields the `None` triple with an empty request trace, i.e. before
any network request. -/
theorem C1_sequence_resolution {α : Type} (cats : List (List α)) (n : Int) :
    (1 ≤ n → n ≤ (totalLen cats : Int) →
      goodTriple cats n (get_book_by_sequence_number (cats.map some) n).1) ∧
    ((totalLen cats : Int) < n →
      (get_book_by_sequence_number (cats.map some) n).1 = none) ∧
    (n < 1 → get_book_by_sequence_number (cats.map some) n = (none, [])) := by
  refine ⟨?_, ?_, ?_⟩
  · intro hn1 hn2
    unfold get_book_by_sequence_number
    rw [if_neg (by omega)]
    obtain ⟨i, p, b, hlen, heq, hp, hle, hlt, hget⟩ :=
      gbLoop_found cats 0 1 n [] (by omega) (by omega)
    rw [heq]
    rw [show (0 : Nat) + i = i from by omega]
    show i < cats.length ∧ p < shardLen cats i ∧
      (cumLen cats i : Int) < n ∧ n ≤ (cumLen cats (i + 1) : Int) ∧
      bookAt cats i p = some b ∧
      ∀ j, (cumLen cats j : Int) < n → n ≤ (cumLen cats (j + 1) : Int) → j = i
    have hsucc := cumLen_succ_of_lt cats i hlen
    refine ⟨hlen, by omega, by omega, by omega, hget, ?_⟩
    intro j hj1 hj2
    exact cumLen_bracket_unique cats n i j (by omega) (by omega) hj1 hj2
  · intro hn
    have h0 : (0 : Int) ≤ (totalLen cats : Int) := by positivity
    unfold get_book_by_sequence_number
    rw [if_neg (by omega)]
    exact gbLoop_exhaust cats 0 1 n [] (by omega)
  · intro hn
    unfold get_book_by_sequence_number
    rw [if_pos hn]

/-- Witness for C1 at catalog sizes [1, 2]: sequence 2 resolves inside the
second catalog, sequence 7 exceeds the total and yields the `None` triple,
and sequence 0 is rejected with no catalog request. -/
theorem C1_sequence_resolution_witness :
    goodTriple [[10], [20, 30]] (2 : Int)
      (get_book_by_sequence_number (([[10], [20, 30]] : List (List Nat)).map some) 2).1 ∧
    (get_book_by_sequence_number (([[10], [20, 30]] : List (List Nat)).map some) 7).1 = none ∧
    get_book_by_sequence_number (([[10], [20, 30]] : List (List Nat)).map some) 0 = (none, []) :=
  ⟨(C1_sequence_resolution [[10], [20, 30]] 2).1 (by decide) (by decide),
   (C1_sequence_resolution [[10], [20, 30]] 7).2.1 (by decide),
   (C1_sequence_resolution [[10], [20, 30]] 0).2.2 (by decide)⟩

/-- Counterexample to claim C5 as stated: catalog 0 fails to fetch, yet
sequence 1 resolves to the first book of catalog 1 — exactly the result
obtained when catalog 0 is an empty (size-zero) catalog, so the running
base offset treats the failed shard's unknown size as zero. -/
theorem C5_counterexample :
    get_book_by_sequence_number [none, some [(7 : Nat)]] 1 = (some (7, 1, 0), [0, 1]) ∧
    get_book_by_sequence_number [none, some [(7 : Nat)]] 1 =
      get_book_by_sequence_number [some [], some [7]] 1 :=
  ⟨by decide, by decide⟩

theorem gbLoop_fst_tr {α : Type} (cats : List (Option (List α))) (idx : Nat)
    (cur n : Int) (tr tr' : List Nat) :
    (gbLoop cats idx cur n tr).1 = (gbLoop cats idx cur n tr').1 := by
  induction cats generalizing idx cur tr tr' with
  | nil => rfl
  | cons c rest ih =>
    cases c with
    | none =>
      simp only [gbLoop]
      exact ih _ _ _ _
    | some info =>
      by_cases hcond : cur ≤ n ∧ n < cur + (info.length : Int)
      · simp only [gbLoop]
        rw [if_pos hcond, if_pos hcond]
        cases hget : info.get? (n - cur).toNat with
        | some b => simp [hget]
        | none =>
          simp only [hget]
          exact ih _ _ _ _
      · simp only [gbLoop]
        rw [if_neg hcond, if_neg hcond]
        exact ih _ _ _ _

theorem gbLoop_shift {α : Type} (cats : List (Option (List α))) (idx : Nat)
    (cur n : Int) (tr : List Nat) :
    (gbLoop cats (idx + 1) cur n tr).1 =
      Option.map (fun r : α × Nat × Nat => (r.1, r.2.1 + 1, r.2.2))
        (gbLoop cats idx cur n tr).1 := by
  induction cats generalizing idx cur tr with
  | nil => rfl
  | cons c rest ih =>
    cases c with
    | none =>
      simp only [gbLoop]
      rw [gbLoop_fst_tr rest (idx + 1 + 1) cur n (tr ++ [idx + 1]) (tr ++ [idx])]
      exact ih _ _ _
    | some info =>
      by_cases hcond : cur ≤ n ∧ n < cur + (info.length : Int)
      · simp only [gbLoop]
        rw [if_pos hcond, if_pos hcond]
        cases hget : info.get? (n - cur).toNat with
        | some b => simp [hget]
        | none =>
          simp only [hget]
          rw [gbLoop_fst_tr rest (idx + 1 + 1) (cur + info.length) n (tr ++ [idx + 1]) (tr ++ [idx])]
          exact ih _ _ _
      · simp only [gbLoop]
        rw [if_neg hcond, if_neg hcond]
        rw [gbLoop_fst_tr rest (idx + 1 + 1) (cur + info.length) n (tr ++ [idx + 1]) (tr ++ [idx])]
        exact ih _ _ _

theorem gbLoop_idx_ge {α : Type} (cats : List (Option (List α))) (idx : Nat)
    (cur n : Int) (tr : List Nat) (b : α) (i p : Nat)
    (h : (gbLoop cats idx cur n tr).1 = some (b, i, p)) : idx ≤ i := by
  induction cats generalizing idx cur tr with
  | nil => simp [gbLoop] at h
  | cons c rest ih =>
    cases c with
    | none =>
      simp only [gbLoop] at h
      exact le_trans (Nat.le_succ idx) (ih _ _ _ h)
    | some info =>
      simp only [gbLoop] at h
      by_cases hcond : cur ≤ n ∧ n < cur + (info.length : Int)
      · rw [if_pos hcond] at h
        cases hget : info.get? (n - cur).toNat with
        | some b' =>
          rw [hget] at h
          simp only [Option.some.injEq, Prod.mk.injEq] at h
          omega
        | none =>
          rw [hget] at h
          exact le_trans (Nat.le_succ idx) (ih _ _ _ h)
      · rw [if_neg hcond] at h
        exact le_trans (Nat.le_succ idx) (ih _ _ _ h)

theorem gbLoop_insert_failed {α : Type} (pre post : List (Option (List α))) (idx : Nat)
    (cur n : Int) (tr : List Nat) :
    (gbLoop (pre ++ none :: post) idx cur n tr).1 =
      Option.map (fun r : α × Nat × Nat =>
          if idx + pre.length ≤ r.2.1 then (r.1, r.2.1 + 1, r.2.2) else r)
        (gbLoop (pre ++ post) idx cur n tr).1 := by
  induction pre generalizing idx cur tr with
  | nil =>
    simp only [List.nil_append, gbLoop]
    rw [gbLoop_fst_tr post (idx + 1) cur n (tr ++ [idx]) tr]
    rw [gbLoop_shift]
    cases hres : (gbLoop post idx cur n tr).1 with
    | none => rfl
    | some r =>
      obtain ⟨b, i, p⟩ := r
      have hge : idx ≤ i := gbLoop_idx_ge post idx cur n tr b i p hres
      simp only [Option.map_some']
      rw [if_pos (by simpa using hge)]
  | cons c pre' ih =>
    cases c with
    | none =>
      simp only [List.cons_append, gbLoop, List.length_cons]
      simp only [show idx + (pre'.length + 1) = idx + 1 + pre'.length from by omega]
      exact ih (idx + 1) cur (tr ++ [idx])
    | some info =>
      by_cases hcond : cur ≤ n ∧ n < cur + (info.length : Int)
      · simp only [List.cons_append, gbLoop, List.length_cons]
        rw [if_pos hcond, if_pos hcond]
        cases hget : info.get? (n - cur).toNat with
        | some b =>
          simp only [hget, Option.map_some']
          rw [if_neg (by omega)]
        | none =>
          simp only [hget]
          simp only [show idx + (pre'.length + 1) = idx + 1 + pre'.length from by omega]
          exact ih (idx + 1) (cur + info.length) (tr ++ [idx])
      · simp only [List.cons_append, gbLoop, List.length_cons]
        rw [if_neg hcond, if_neg hcond]
        simp only [show idx + (pre'.length + 1) = idx + 1 + pre'.length from by omega]
        exact ih (idx + 1) (cur + info.length) (tr ++ [idx])

/-- Amended claim C5: a catalog that fails to fetch or parse is skipped
without aborting resolution of the remaining catalogs, but the running
base offset is advanced by zero for it: resolution over the list with the
failed catalog gives exactly the result of resolution with that catalog
removed, with later catalog indices shifted up by the skipped slot. -/
theorem C5_failed_shard_counts_as_zero {α : Type} (pre post : List (Option (List α))) (n : Int) :
    (get_book_by_sequence_number (pre ++ none :: post) n).1 =
      Option.map (fun r : α × Nat × Nat =>
          if pre.length ≤ r.2.1 then (r.1, r.2.1 + 1, r.2.2) else r)
        ((get_book_by_sequence_number (pre ++ post) n).1) := by
  unfold get_book_by_sequence_number
  by_cases hn : n < 1
  · rw [if_pos hn, if_pos hn]
    rfl
  · rw [if_neg hn, if_neg hn]
    have h := gbLoop_insert_failed pre post 0 1 n []
    simpa using h

theorem get_pdf_url_no_download (items : List TiItem)
    (h : ∀ x ∈ items, hasDownload x = false) :
    get_pdf_url items = none := by
  induction items with
  | nil => rfl
  | cons it rest ih =>
    have hit := h it (List.mem_cons_self it rest)
    have hrest : get_pdf_url rest = none :=
      ih fun x hx => h x (List.mem_cons_of_mem _ hx)
    by_cases hsrc : it.ti_file_flag = some "source"
    · simp only [get_pdf_url]
      rw [if_pos hsrc]
      cases hst : it.ti_storages with
      | none => simpa [hst] using hrest
      | some l =>
        cases l with
        | nil => simpa [hst] using hrest
        | cons u us =>
          exfalso
          simp [hasDownload, isSourceItem, hsrc, hst] at hit
    · simp only [get_pdf_url]
      rw [if_neg hsrc]
      exact hrest

theorem get_pdf_url_from_source (items : List TiItem) (urls : List String)
    (h : get_pdf_url items = some urls) : cameFromSource items urls := by
  induction items with
  | nil => simp [get_pdf_url] at h
  | cons it rest ih =>
    by_cases hsrc : it.ti_file_flag = some "source"
    · simp only [get_pdf_url] at h
      rw [if_pos hsrc] at h
      cases hst : it.ti_storages with
      | none =>
        rw [hst] at h
        obtain ⟨it', hmem, hflag, u, us, hstor, hurls⟩ := ih h
        exact ⟨it', List.mem_cons_of_mem _ hmem, hflag, u, us, hstor, hurls⟩
      | some l =>
        cases l with
        | nil =>
          rw [hst] at h
          obtain ⟨it', hmem, hflag, u, us, hstor, hurls⟩ := ih h
          exact ⟨it', List.mem_cons_of_mem _ hmem, hflag, u, us, hstor, hurls⟩
        | cons u us =>
          rw [hst] at h
          simp only [Option.some.injEq] at h
          exact ⟨it, List.mem_cons_self it rest, hsrc, u, us, hst, h.symm⟩
    · simp only [get_pdf_url] at h
      rw [if_neg hsrc] at h
      obtain ⟨it', hmem, hflag, u, us, hstor, hurls⟩ := ih h
      exact ⟨it', List.mem_cons_of_mem _ hmem, hflag, u, us, hstor, hurls⟩

theorem get_pdf_url_single_source (items : List TiItem) (it : TiItem)
    (h : items.filter isSourceItem = [it]) :
    get_pdf_url items = itemResult it := by
  induction items with
  | nil => simp at h
  | cons x rest ih =>
    by_cases hsrc : x.ti_file_flag = some "source"
    · have hsb : isSourceItem x = true := by simp [isSourceItem, hsrc]
      rw [List.filter_cons_of_pos hsb] at h
      have hx : x = it := (List.cons.injEq _ _ _ _).mp h |>.1
      have hrestf : rest.filter isSourceItem = [] := (List.cons.injEq _ _ _ _).mp h |>.2
      have hrestnone : get_pdf_url rest = none := by
        apply get_pdf_url_no_download
        intro y hy
        have hns : ¬ (isSourceItem y = true) := by
          intro hsy
          have : y ∈ rest.filter isSourceItem := List.mem_filter.mpr ⟨hy, hsy⟩
          rw [hrestf] at this
          simp at this
        simp [hasDownload, Bool.eq_false_iff.mpr hns]
      subst hx
      simp only [get_pdf_url]
      rw [if_pos hsrc]
      cases hst : x.ti_storages with
      | none => simp [hst, itemResult, hrestnone]
      | some l =>
        cases l with
        | nil => simp [hst, itemResult, hrestnone]
        | cons u us => simp [hst, itemResult]
    · have hsb : isSourceItem x = false := by simp [isSourceItem, hsrc]
      rw [List.filter_cons_of_neg (by simp [hsb])] at h
      simp only [get_pdf_url]
      rw [if_neg hsrc]
      exact ih h

/-- Claim C6: `get_pdf_url` scans the item list for the entry flagged
`"source"` (case-sensitive exact equality); when no item is source-flagged
it returns `None`; any returned URL list comes from a source-flagged item
whose storage list is non-empty, transformed element-wise by substituting
`-private` with `-oversea` in order; and when the document has exactly one
source-flagged entry, the result is that item's transformed storage list,
`None` when it carries zero storage URIs — never an item of another type. -/
theorem C6_source_scan (items : List TiItem) :
    ((∀ x ∈ items, isSourceItem x = false) → get_pdf_url items = none) ∧
    (∀ urls, get_pdf_url items = some urls → cameFromSource items urls) ∧
    (∀ it, items.filter isSourceItem = [it] → get_pdf_url items = itemResult it) := by
  refine ⟨?_, ?_, ?_⟩
  · intro h
    apply get_pdf_url_no_download
    intro x hx
    simp [hasDownload, h x hx]
  · intro urls h
    exact get_pdf_url_from_source items urls h
  · intro it h
    exact get_pdf_url_single_source items it h

/-- Witness for C6: the example document holds a preview item and one
source item with two replicated `-private` URIs; the scan returns exactly
the source item's URIs with the access class rewritten to `-oversea`. -/
theorem C6_source_scan_witness :
    exItems.filter isSourceItem = [exSourceItem] ∧
    get_pdf_url exItems = itemResult exSourceItem ∧
    itemResult exSourceItem =
      some ["https://r1-ndr-oversea.x/a.pdf", "https://r2-ndr-oversea.x/a.pdf"] :=
  ⟨by decide, (C6_source_scan exItems).2.2 exSourceItem (by decide), by decide⟩

theorem rangeLoop_spec (env : RangeEnv) (seqs : List Int) (tot : Nat)
    (fs : List (Int × String × String)) :
    rangeLoop env seqs (tot, fs) =
      (tot + seqs.countP (fun q => (processSeq env q).isNone),
       fs ++ seqs.filterMap (processSeq env)) := by
  induction seqs generalizing tot fs with
  | nil => simp [rangeLoop]
  | cons q rest ih =>
    cases hq : processSeq env q with
    | none =>
      simp only [rangeLoop, hq]
      rw [ih]
      rw [List.countP_cons, List.filterMap_cons, hq]
      simp only [Option.isNone_none, Prod.mk.injEq]
      exact ⟨by simp; omega, by simp⟩
    | some f =>
      simp only [rangeLoop, hq]
      rw [ih]
      rw [List.countP_cons, List.filterMap_cons, hq]
      simp only [Option.isNone_some, Prod.mk.injEq]
      exact ⟨by simp, by simp⟩

theorem countP_none_add_filterMap_length (f : Int → Option (Int × String × String))
    (l : List Int) :
    l.countP (fun q => (f q).isNone) + (l.filterMap f).length = l.length := by
  induction l with
  | nil => rfl
  | cons q rest ih =>
    cases hq : f q with
    | none =>
      rw [List.countP_cons, List.filterMap_cons, hq]
      simp only [hq, Option.isNone_none, List.length_cons]
      simp
      omega
    | some v =>
      rw [List.countP_cons, List.filterMap_cons, hq]
      simp only [hq, Option.isNone_some, List.length_cons]
      simp
      omega

theorem rangeRun_outcome_count (env : RangeEnv) (s e : Int) :
    (rangeRun env s e).1 + ((rangeRun env s e).2).length = (seqList s e).length := by
  unfold rangeRun
  rw [rangeLoop_spec]
  simp only [Nat.zero_add, List.nil_append]
  exact countP_none_add_filterMap_length (processSeq env) (seqList s e)

/-- Claim C8: in range mode every sequence number of the walk produces
exactly one recorded outcome — the success counter counts the sequence
numbers whose processing succeeds, the failure list holds, in order, the
one entry of each failing sequence number, and together they account for
every sequence number of the range, so one failure never halts the rest. -/
theorem C8_every_book_one_outcome (env : RangeEnv) (s e : Int) :
    (rangeRun env s e).1 = (seqList s e).countP (fun q => (processSeq env q).isNone) ∧
    (rangeRun env s e).2 = (seqList s e).filterMap (processSeq env) ∧
    (rangeRun env s e).1 + ((rangeRun env s e).2).length = (seqList s e).length := by
  refine ⟨?_, ?_, rangeRun_outcome_count env s e⟩
  · unfold rangeRun
    rw [rangeLoop_spec]
    simp
  · unfold rangeRun
    rw [rangeLoop_spec]
    simp

/-- Witness for C8: a walk over sequences 1..5 where only sequence 3 fails
(it does not resolve) yields 4 successes and exactly one failure entry. -/
theorem C8_every_book_one_outcome_witness :
    (rangeRun exEnv 1 5).1 = 4 ∧
    (rangeRun exEnv 1 5).2 = [(3, "Unknown", "Not found")] ∧
    (rangeRun exEnv 1 5).1 + ((rangeRun exEnv 1 5).2).length = (seqList 1 5).length :=
  ⟨by decide, by decide, (C8_every_book_one_outcome exEnv 1 5).2.2⟩

theorem contains_cons_false (x : Char) (xs : List Char) (c : Char)
    (h : (x :: xs).contains c = false) : x ≠ c ∧ xs.contains c = false := by
  simp [List.contains_cons] at h
  exact ⟨by intro he; subst he; simp at h, by simpa using h.2⟩

theorem splitOnChar_no_sep (c : Char) (p : List Char) (hp : p.contains c = false) :
    splitOnChar c p = [p] := by
  induction p with
  | nil => rfl
  | cons x xs ih =>
    obtain ⟨hx, hxs⟩ := contains_cons_false x xs c hp
    simp only [splitOnChar]
    rw [if_neg hx, ih hxs]

theorem splitOnChar_append (c : Char) (p q : List Char) (hp : p.contains c = false) :
    splitOnChar c (p ++ c :: q) = p :: splitOnChar c q := by
  induction p with
  | nil => simp [splitOnChar]
  | cons x xs ih =>
    obtain ⟨hx, hxs⟩ := contains_cons_false x xs c hp
    simp only [List.cons_append, splitOnChar, List.append_eq]
    rw [if_neg hx, ih hxs]

/-- Claim C9: a range argument `"a-b"` with `a > b` behaves identically to
`"b-a"` — both run the walk from the smaller to the larger bound inclusive
— and a single-integer argument `"n"` runs the walk from `n` to `n`. -/
theorem C9_range_normalization (env : RangeEnv) (p q : List Char) (a b : Int)
    (hp : p.contains '-' = false) (hq : q.contains '-' = false)
    (hpa : pyInt? p = some a) (hqb : pyInt? q = some b) :
    _download_by_book_range env (p ++ '-' :: q) = _download_by_book_range env (q ++ '-' :: p) ∧
    _download_by_book_range env (p ++ '-' :: q) = some (rangeRun env (min a b) (max a b)) ∧
    _download_by_book_range env p = some (rangeRun env a a) := by
  have hc1 : (p ++ '-' :: q).contains '-' = true := by simp
  have hc2 : (q ++ '-' :: p).contains '-' = true := by simp
  have hs1 : splitOnChar '-' (p ++ '-' :: q) = [p, q] := by
    rw [splitOnChar_append '-' p q hp, splitOnChar_no_sep '-' q hq]
  have hs2 : splitOnChar '-' (q ++ '-' :: p) = [q, p] := by
    rw [splitOnChar_append '-' q p hq, splitOnChar_no_sep '-' p hp]
  have e1 : _download_by_book_range env (p ++ '-' :: q) =
      if a > b then some (rangeRun env b a) else some (rangeRun env a b) := by
    simp [_download_by_book_range, hc1, hs1, hpa, hqb]
  have e2 : _download_by_book_range env (q ++ '-' :: p) =
      if b > a then some (rangeRun env a b) else some (rangeRun env b a) := by
    simp [_download_by_book_range, hc2, hs2, hpa, hqb]
  refine ⟨?_, ?_, ?_⟩
  · rw [e1, e2]
    rcases lt_trichotomy a b with h | h | h
    · rw [if_neg (by omega), if_pos (by omega)]
    · subst h
      rw [if_neg (by omega)]
    · rw [if_pos (by omega), if_neg (by omega)]
  · rw [e1]
    rcases le_or_lt a b with h | h
    · rw [if_neg (by omega), min_eq_left h, max_eq_right h]
    · rw [if_pos (by omega), min_eq_right (le_of_lt h), max_eq_left (le_of_lt h)]
  · have hnot : ('-' ∉ p) := by simpa using hp
    simp [_download_by_book_range, hp, hpa]
    intro hmem
    exact absurd hmem hnot

/-- Witness for C9: the range argument "50-10" behaves exactly as "10-50",
and the single-integer argument "10" runs the walk from 10 to 10. -/
theorem C9_range_normalization_witness :
    pyInt? ['5', '0'] = some 50 ∧ pyInt? ['1', '0'] = some 10 ∧
    _download_by_book_range exEnv (['5', '0'] ++ '-' :: ['1', '0']) =
      _download_by_book_range exEnv (['1', '0'] ++ '-' :: ['5', '0']) ∧
    _download_by_book_range exEnv (['1', '0'] : List Char) = some (rangeRun exEnv 10 10) := by
  refine ⟨by decide, by decide, ?_, ?_⟩
  · exact (C9_range_normalization exEnv ['5', '0'] ['1', '0'] 50 10 (by decide) (by decide)
      (by decide) (by decide)).1
  · exact (C9_range_normalization exEnv ['1', '0'] ['5', '0'] 10 50 (by decide) (by decide)
      (by decide) (by decide)).2.2

/-- Amended claim C7: a local write error (OSError) while saving an
accepted payload is caught and the candidate treated as failed — the book's
next candidate endpoint is still requested and no write from the failed
candidate exists — while the batch is unaffected: every sequence number of
a range walk still yields exactly one outcome. -/
theorem C7_write_error_continues (atts : List Attempt) (i : Nat) (a : Attempt)
    (ha : atts.get? i = some a) (_hv : validAttempt a = true) (hw : a.writeOk = false) :
    Ev.write i ∉ (download_pdf_with_cdn_fallback (some atts)).2 ∧
    (Ev.request i ∈ (download_pdf_with_cdn_fallback (some atts)).2 →
      i + 1 < atts.length →
        Ev.request (i + 1) ∈ (download_pdf_with_cdn_fallback (some atts)).2) ∧
    ∀ env s e, (rangeRun env s e).1 + ((rangeRun env s e).2).length = (seqList s e).length := by
  have hna : acceptedAttempt a = false := by simp [acceptedAttempt, hw]
  obtain ⟨h1, h2⟩ := notacc_step atts i a ha hna
  exact ⟨h1, h2, fun env s e => rangeRun_outcome_count env s e⟩

/-- Witness for C7 (amended): candidate 0's payload is valid but its save
fails with OSError; the write never happens from candidate 0 and candidate
1 is requested next, and the range bookkeeping identity holds. -/
theorem C7_write_error_continues_witness :
    Ev.write 0 ∉ (download_pdf_with_cdn_fallback (some [badDiskAttempt, goodAttempt])).2 ∧
    (Ev.request 0 ∈ (download_pdf_with_cdn_fallback (some [badDiskAttempt, goodAttempt])).2 →
      0 + 1 < ([badDiskAttempt, goodAttempt] : List Attempt).length →
        Ev.request (0 + 1) ∈ (download_pdf_with_cdn_fallback (some [badDiskAttempt, goodAttempt])).2) ∧
    ∀ env s e, (rangeRun env s e).1 + ((rangeRun env s e).2).length = (seqList s e).length :=
  C7_write_error_continues [badDiskAttempt, goodAttempt] 0 badDiskAttempt
    (by decide) (by decide) (by decide)
